import Mathlib

/-!
Verification of the Beanie database adapter for FastAPI Users.

A shallow embedding of `fastapi_users_db_beanie` (files
`fastapi_users_db_beanie/__init__.py` and
`fastapi_users_db_beanie/access_token.py`).

Documents are Lean structures, a MongoDB collection is a `List` of
documents, the asynchronous adapter methods become pure functions; a
method that can raise returns `Except`.  The MongoDB/Beanie primitives
the adapter delegates to (`find_one`, `insert`, `save`, the ICU
strength-2 collation) are external collaborators of the repository and
are modelled from their documented behaviour.
-/

/-- A character as seen by a locale-aware collator, decomposed into its
ICU collation weights: `base` is the primary weight (the identity of the
base letter, covering any script; also symbols such as `*`, which carry
their own primary weight and no special meaning), `diacritic` the
secondary weight (`0` = no accent), and `upper` the tertiary weight
(letter case).  External collaborator, modelled from the documented
behaviour of ICU collations. -/
structure CollChar where
  base : Nat
  diacritic : Nat
  upper : Bool
deriving DecidableEq, Repr

/-- Strength-2 comparison of single characters: primary and secondary
weights are compared, the tertiary weight (case) is ignored. -/
def collEq2 (a b : CollChar) : Bool :=
  a.base == b.base && a.diacritic == b.diacritic

/-- Equality of two strings under a strength-2 collation: pointwise
strength-2 equality of the characters, same length.  This is the
matching predicate MongoDB applies to an equality query run with
`Collation("en", strength=2)`. -/
def strEq2 : List CollChar → List CollChar → Bool
  | [], [] => true
  | a :: as, b :: bs => collEq2 a b && strEq2 as bs
  | _, _ => false

/-- Flip the case of a character, leaving base letter and diacritic
untouched. -/
def caseFlip (c : CollChar) : CollChar :=
  { c with upper := !c.upper }

/-- The collation character for the literal `*` (primary weight 42, its
code point; no diacritic, no case). -/
def starChar : CollChar := ⟨42, 0, false⟩

/-- `BaseOAuthAccount` from `fastapi_users_db_beanie/__init__.py`:
an embedded OAuth sub-record.  `PydanticObjectId` values are modelled
as `Nat`. -/
structure OAuthAccount where
  id : Nat
  oauth_name : String
  access_token : String
  account_id : String
  account_email : String
  expires_at : Option Int
  refresh_token : Option String
deriving DecidableEq, Repr

/-- `BeanieBaseUserDocument` (with the optional `oauth_accounts` list of
the OAuth variant): the persisted user document.  The email is kept as a
list of collation characters so that the collation-aware lookup can be
stated. -/
structure UserDoc where
  id : Nat
  email : List CollChar
  hashed_password : String
  is_active : Bool
  is_superuser : Bool
  is_verified : Bool
  oauth_accounts : List OAuthAccount
deriving DecidableEq, Repr

/-- Beanie's `find_one` on the user collection: the first document of
the collection satisfying the predicate, if any. -/
def find_one (store : List UserDoc) (p : UserDoc → Bool) : Option UserDoc :=
  store.find? p

/-- Beanie's `Document.save`: rewrite the whole document under its id
(replacing the stored version when present, inserting otherwise). -/
def save (store : List UserDoc) (u : UserDoc) : List UserDoc :=
  if store.any (fun v => v.id == u.id) then
    store.map (fun v => if v.id == u.id then u else v)
  else
    store ++ [u]

/-- `BeanieUserDatabase.get_by_email`: a collation-aware `find_one` for
`user_model.email == email` under `Settings.email_collation`
(strength 2). -/
def get_by_email (store : List UserDoc) (email : List CollChar) : Option UserDoc :=
  find_one store (fun u => strEq2 u.email email)

/-- The field mapping (`create_dict`) accepted by the OAuth sub-record
constructor `BaseOAuthAccount(**create_dict)`: required fields of the
model, plus the optional ones; a key absent from the Python dict is
`none`. -/
structure OAuthCreateDict where
  id : Option Nat := none
  oauth_name : String
  access_token : String
  account_id : String
  account_email : String
  expires_at : Option Int := none
  refresh_token : Option String := none
deriving DecidableEq, Repr

/-- `BaseOAuthAccount(**create_dict)`: every given entry is used, the
sub-record identifier defaults to a freshly generated one
(`Field(default_factory=PydanticObjectId)`), `expires_at` and
`refresh_token` default to `None`. -/
def mkOAuthAccount (fresh : Nat) (d : OAuthCreateDict) : OAuthAccount :=
  { id := d.id.getD fresh
    oauth_name := d.oauth_name
    access_token := d.access_token
    account_id := d.account_id
    account_email := d.account_email
    expires_at := d.expires_at
    refresh_token := d.refresh_token }

/-- The errors the adapter can raise: `NotImplementedError` for OAuth
operations on an adapter without an OAuth model, and the framework's
`InvalidID` from `parse_id`. -/
inductive DBError where
  | notImplementedError
  | invalidID
deriving DecidableEq, Repr

/-- `BeanieUserDatabase`: holds the optional OAuth account model (a
constructor from a fresh identifier and a field mapping).  `none` models
an adapter constructed without `oauth_account_model`. -/
structure BeanieUserDatabase where
  oauth_account_model : Option (Nat → OAuthCreateDict → OAuthAccount)

/-- The part of the framework's OAuth protocol (`OAP`) that
`update_oauth_account` reads: provider name and provider account id. -/
structure OAP where
  oauth_name : String
  account_id : String
deriving DecidableEq, Repr

/-- A single `key: value` entry of an `update_dict` for an OAuth
sub-record: one constructor per settable field of `BaseOAuthAccount`,
carrying the new value. -/
inductive OAuthUpd where
  | id (v : Nat)
  | oauth_name (v : String)
  | access_token (v : String)
  | account_id (v : String)
  | account_email (v : String)
  | expires_at (v : Option Int)
  | refresh_token (v : Option String)
deriving DecidableEq, Repr

/-- The field names of an OAuth sub-record. -/
inductive OAuthKey where
  | id
  | oauth_name
  | access_token
  | account_id
  | account_email
  | expires_at
  | refresh_token
deriving DecidableEq, Repr

/-- The values an OAuth sub-record field can hold. -/
inductive OAuthVal where
  | nat (v : Nat)
  | str (v : String)
  | optInt (v : Option Int)
  | optStr (v : Option String)
deriving DecidableEq, Repr

def OAuthUpd.key : OAuthUpd → OAuthKey
  | .id _ => .id
  | .oauth_name _ => .oauth_name
  | .access_token _ => .access_token
  | .account_id _ => .account_id
  | .account_email _ => .account_email
  | .expires_at _ => .expires_at
  | .refresh_token _ => .refresh_token

def OAuthUpd.val : OAuthUpd → OAuthVal
  | .id v => .nat v
  | .oauth_name v => .str v
  | .access_token v => .str v
  | .account_id v => .str v
  | .account_email v => .str v
  | .expires_at v => .optInt v
  | .refresh_token v => .optStr v

/-- Read a field of an OAuth sub-record by name. -/
def getOAuthAttr (a : OAuthAccount) : OAuthKey → OAuthVal
  | .id => .nat a.id
  | .oauth_name => .str a.oauth_name
  | .access_token => .str a.access_token
  | .account_id => .str a.account_id
  | .account_email => .str a.account_email
  | .expires_at => .optInt a.expires_at
  | .refresh_token => .optStr a.refresh_token

/-- `setattr(account, key, value)` on an OAuth sub-record. -/
def setOAuthAttr (a : OAuthAccount) : OAuthUpd → OAuthAccount
  | .id v => { a with id := v }
  | .oauth_name v => { a with oauth_name := v }
  | .access_token v => { a with access_token := v }
  | .account_id v => { a with account_id := v }
  | .account_email v => { a with account_email := v }
  | .expires_at v => { a with expires_at := v }
  | .refresh_token v => { a with refresh_token := v }

/-- `for key, value in update_dict.items(): setattr(account, key, value)`. -/
def applyOAuthUpdates (a : OAuthAccount) (upds : List OAuthUpd) : OAuthAccount :=
  upds.foldl setOAuthAttr a

/-- The value the last update with key `k` writes, if any (a Python dict
has unique keys, but a list of entries is characterised by last-wins). -/
def lookupLastVal : List OAuthUpd → OAuthKey → Option OAuthVal
  | [], _ => none
  | u :: us, k =>
    match lookupLastVal us k with
    | some v => some v
    | none => if u.key = k then some u.val else none

/-- The matching test of `update_oauth_account`:
`existing.oauth_name == oauth_account.oauth_name and
existing.account_id == oauth_account.account_id`. -/
def matchesOAP (existing : OAuthAccount) (oauth_account : OAP) : Bool :=
  existing.oauth_name == oauth_account.oauth_name
    && existing.account_id == oauth_account.account_id

/-- `BeanieUserDatabase.get_by_oauth_account`: raises
`NotImplementedError` when no OAuth model is configured, otherwise a
`find_one` for a user owning an embedded sub-record with the queried
provider name and account id. -/
def get_by_oauth_account (db : BeanieUserDatabase) (store : List UserDoc)
    (oauth : String) (account_id : String) : Except DBError (Option UserDoc) :=
  match db.oauth_account_model with
  | none => .error .notImplementedError
  | some _ =>
    .ok (find_one store (fun u =>
      u.oauth_accounts.any (fun a =>
        a.oauth_name == oauth && a.account_id == account_id)))

/-- `BeanieUserDatabase.add_oauth_account`: raises
`NotImplementedError` when no OAuth model is configured, otherwise
constructs the sub-record with the model, appends it to
`user.oauth_accounts`, saves the user and returns it (result: the saved
collection and the returned user). -/
def add_oauth_account (db : BeanieUserDatabase) (fresh : Nat)
    (store : List UserDoc) (user : UserDoc) (create_dict : OAuthCreateDict) :
    Except DBError (List UserDoc × UserDoc) :=
  match db.oauth_account_model with
  | none => .error .notImplementedError
  | some model =>
    let oauth_account := model fresh create_dict
    let user' := { user with oauth_accounts := user.oauth_accounts ++ [oauth_account] }
    .ok (save store user', user')

/-- `BeanieUserDatabase.update_oauth_account`: raises
`NotImplementedError` when no OAuth model is configured, otherwise
applies every `update_dict` entry to each stored sub-record whose
(provider name, account id) pair equals the given one, saves the user
and returns it. -/
def update_oauth_account (db : BeanieUserDatabase) (store : List UserDoc)
    (user : UserDoc) (oauth_account : OAP) (update_dict : List OAuthUpd) :
    Except DBError (List UserDoc × UserDoc) :=
  match db.oauth_account_model with
  | none => .error .notImplementedError
  | some _ =>
    let user' := { user with oauth_accounts :=
      user.oauth_accounts.map (fun a =>
        if matchesOAP a oauth_account then applyOAuthUpdates a update_dict else a) }
    .ok (save store user', user')

/-- `BeanieBaseAccessTokenDocument` from
`fastapi_users_db_beanie/access_token.py`: the persisted access-token
document.  `datetime` values are modelled as `Int` (a point on the UTC
time line). -/
structure AccessTokenDoc where
  id : Nat
  token : String
  user_id : Nat
  created_at : Int
deriving DecidableEq, Repr

/-- Beanie's `find_one` on the access-token collection. -/
def find_one_access_token (store : List AccessTokenDoc)
    (p : AccessTokenDoc → Bool) : Option AccessTokenDoc :=
  store.find? p

/-- Beanie's `Document.save` on the access-token collection. -/
def save_access_token (store : List AccessTokenDoc) (d : AccessTokenDoc) :
    List AccessTokenDoc :=
  if store.any (fun v => v.id == d.id) then
    store.map (fun v => if v.id == d.id then d else v)
  else
    store ++ [d]

/-- `BeanieAccessTokenDatabase.get_by_token`: `find_one` for the query
`{"token": token}`, extended with `{"created_at": {"$gte": max_age}}`
when `max_age` is given. -/
def get_by_token (store : List AccessTokenDoc) (token : String)
    (max_age : Option Int) : Option AccessTokenDoc :=
  find_one_access_token store (fun d =>
    d.token == token &&
      (match max_age with
       | none => true
       | some m => decide (m ≤ d.created_at)))

/-- The field mapping accepted by `user_model(**create_dict)`: required
model fields plus the optional ones; a key absent from the Python dict
is `none`.  The primary key `id` may be supplied by the caller, since
`create` forwards every entry of the mapping unfiltered. -/
structure UserCreateDict where
  id : Option Nat := none
  email : List CollChar
  hashed_password : String
  is_active : Option Bool := none
  is_superuser : Option Bool := none
  is_verified : Option Bool := none
  oauth_accounts : Option (List OAuthAccount) := none
deriving DecidableEq, Repr

/-- `user_model(**create_dict)`: absent fields take their declared
defaults (`is_active=True`, `is_superuser=False`, `is_verified=False`,
`oauth_accounts=[]`); an absent `id` is generated by the store
(`fresh`). -/
def mkUserDoc (fresh : Nat) (d : UserCreateDict) : UserDoc :=
  { id := d.id.getD fresh
    email := d.email
    hashed_password := d.hashed_password
    is_active := d.is_active.getD true
    is_superuser := d.is_superuser.getD false
    is_verified := d.is_verified.getD false
    oauth_accounts := d.oauth_accounts.getD [] }

/-- `BeanieUserDatabase.create`: construct the document from the field
mapping and insert it (`user.create()`), returning the inserted
document. -/
def BeanieUserDatabase.create (store : List UserDoc) (fresh : Nat)
    (create_dict : UserCreateDict) : List UserDoc × UserDoc :=
  let user := mkUserDoc fresh create_dict
  (store ++ [user], user)

/-- The field mapping accepted by `access_token_model(**create_dict)`. -/
structure AccessTokenCreateDict where
  id : Option Nat := none
  token : String
  user_id : Nat
  created_at : Option Int := none
deriving DecidableEq, Repr

/-- `access_token_model(**create_dict)`: an absent `created_at` defaults
to the current UTC time at construction
(`Field(default_factory=lambda: datetime.now(timezone.utc))`, the `now`
argument); an absent `id` is generated by the store. -/
def mkAccessTokenDoc (fresh : Nat) (now : Int) (d : AccessTokenCreateDict) :
    AccessTokenDoc :=
  { id := d.id.getD fresh
    token := d.token
    user_id := d.user_id
    created_at := d.created_at.getD now }

/-- `BeanieAccessTokenDatabase.create`: construct the document from the
field mapping and insert it. -/
def BeanieAccessTokenDatabase.create (store : List AccessTokenDoc)
    (fresh : Nat) (now : Int) (create_dict : AccessTokenCreateDict) :
    List AccessTokenDoc × AccessTokenDoc :=
  let access_token := mkAccessTokenDoc fresh now create_dict
  (store ++ [access_token], access_token)

/-- A single `key: value` entry of an `update_dict` for a user
document: one constructor per settable field, carrying the new value. -/
inductive UserUpd where
  | id (v : Nat)
  | email (v : List CollChar)
  | hashed_password (v : String)
  | is_active (v : Bool)
  | is_superuser (v : Bool)
  | is_verified (v : Bool)
  | oauth_accounts (v : List OAuthAccount)
deriving DecidableEq, Repr

/-- The field names of a user document. -/
inductive UserKey where
  | id
  | email
  | hashed_password
  | is_active
  | is_superuser
  | is_verified
  | oauth_accounts
deriving DecidableEq, Repr

/-- The values a user document field can hold. -/
inductive UserVal where
  | nat (v : Nat)
  | chars (v : List CollChar)
  | str (v : String)
  | bool (v : Bool)
  | accounts (v : List OAuthAccount)
deriving DecidableEq, Repr

def UserUpd.key : UserUpd → UserKey
  | .id _ => .id
  | .email _ => .email
  | .hashed_password _ => .hashed_password
  | .is_active _ => .is_active
  | .is_superuser _ => .is_superuser
  | .is_verified _ => .is_verified
  | .oauth_accounts _ => .oauth_accounts

def UserUpd.val : UserUpd → UserVal
  | .id v => .nat v
  | .email v => .chars v
  | .hashed_password v => .str v
  | .is_active v => .bool v
  | .is_superuser v => .bool v
  | .is_verified v => .bool v
  | .oauth_accounts v => .accounts v

/-- Read a field of a user document by name. -/
def getUserAttr (u : UserDoc) : UserKey → UserVal
  | .id => .nat u.id
  | .email => .chars u.email
  | .hashed_password => .str u.hashed_password
  | .is_active => .bool u.is_active
  | .is_superuser => .bool u.is_superuser
  | .is_verified => .bool u.is_verified
  | .oauth_accounts => .accounts u.oauth_accounts

/-- `setattr(user, key, value)` on a user document. -/
def setUserAttr (u : UserDoc) : UserUpd → UserDoc
  | .id v => { u with id := v }
  | .email v => { u with email := v }
  | .hashed_password v => { u with hashed_password := v }
  | .is_active v => { u with is_active := v }
  | .is_superuser v => { u with is_superuser := v }
  | .is_verified v => { u with is_verified := v }
  | .oauth_accounts v => { u with oauth_accounts := v }

/-- `for key, value in update_dict.items(): setattr(user, key, value)`. -/
def applyUserUpdates (u : UserDoc) (upds : List UserUpd) : UserDoc :=
  upds.foldl setUserAttr u

/-- The value the last user-document update with key `k` writes. -/
def userLookupLastVal : List UserUpd → UserKey → Option UserVal
  | [], _ => none
  | u :: us, k =>
    match userLookupLastVal us k with
    | some v => some v
    | none => if u.key = k then some u.val else none

/-- `BeanieUserDatabase.update`: merge the `update_dict` entries into
the document with `setattr`, then save the whole document. -/
def BeanieUserDatabase.update (store : List UserDoc) (user : UserDoc)
    (update_dict : List UserUpd) : List UserDoc × UserDoc :=
  let merged := applyUserUpdates user update_dict
  (save store merged, merged)

/-- A single `key: value` entry of an `update_dict` for an access-token
document. -/
inductive TokenUpd where
  | id (v : Nat)
  | token (v : String)
  | user_id (v : Nat)
  | created_at (v : Int)
deriving DecidableEq, Repr

/-- The field names of an access-token document. -/
inductive TokenKey where
  | id
  | token
  | user_id
  | created_at
deriving DecidableEq, Repr

/-- The values an access-token document field can hold. -/
inductive TokenVal where
  | nat (v : Nat)
  | str (v : String)
  | int (v : Int)
deriving DecidableEq, Repr

def TokenUpd.key : TokenUpd → TokenKey
  | .id _ => .id
  | .token _ => .token
  | .user_id _ => .user_id
  | .created_at _ => .created_at

def TokenUpd.val : TokenUpd → TokenVal
  | .id v => .nat v
  | .token v => .str v
  | .user_id v => .nat v
  | .created_at v => .int v

/-- Read a field of an access-token document by name. -/
def getTokenAttr (d : AccessTokenDoc) : TokenKey → TokenVal
  | .id => .nat d.id
  | .token => .str d.token
  | .user_id => .nat d.user_id
  | .created_at => .int d.created_at

/-- `setattr(access_token, key, value)` on an access-token document. -/
def setTokenAttr (d : AccessTokenDoc) : TokenUpd → AccessTokenDoc
  | .id v => { d with id := v }
  | .token v => { d with token := v }
  | .user_id v => { d with user_id := v }
  | .created_at v => { d with created_at := v }

/-- `for key, value in update_dict.items(): setattr(access_token, key, value)`. -/
def applyTokenUpdates (d : AccessTokenDoc) (upds : List TokenUpd) : AccessTokenDoc :=
  upds.foldl setTokenAttr d

/-- The value the last access-token update with key `k` writes. -/
def tokenLookupLastVal : List TokenUpd → TokenKey → Option TokenVal
  | [], _ => none
  | u :: us, k =>
    match tokenLookupLastVal us k with
    | some v => some v
    | none => if u.key = k then some u.val else none

/-- `BeanieAccessTokenDatabase.update`: merge the `update_dict` entries
into the document with `setattr`, then save the whole document. -/
def BeanieAccessTokenDatabase.update (store : List AccessTokenDoc)
    (access_token : AccessTokenDoc) (update_dict : List TokenUpd) :
    List AccessTokenDoc × AccessTokenDoc :=
  let merged := applyTokenUpdates access_token update_dict
  (save_access_token store merged, merged)

/-- A hexadecimal digit, as accepted by `bson.ObjectId`. -/
def isHexChar (c : Char) : Bool :=
  (decide ('0' ≤ c) && decide (c ≤ '9'))
    || (decide ('a' ≤ c) && decide (c ≤ 'f'))
    || (decide ('A' ≤ c) && decide (c ≤ 'F'))

/-- `bson.ObjectId`'s validity test for a string argument: exactly 24
hexadecimal characters. -/
def validObjectIdHex (s : String) : Bool :=
  s.length == 24 && s.toList.all isHexChar

/-- Lowercase a hexadecimal digit (the hex decoding of
`bson.ObjectId` is case-insensitive, so the canonical rendering of the
decoded bytes is lowercase). -/
def hexLowerChar (c : Char) : Char :=
  match c with
  | 'A' => 'a'
  | 'B' => 'b'
  | 'C' => 'c'
  | 'D' => 'd'
  | 'E' => 'e'
  | 'F' => 'f'
  | _ => c

/-- Lowercase every hex digit of a string. -/
def hexToLower (s : String) : String :=
  ⟨s.data.map hexLowerChar⟩

/-- A BSON ObjectId value; its 12-byte content is represented by its
canonical (lowercase) 24-character hex rendering. -/
structure ObjectIdV where
  hex : String
deriving DecidableEq, Repr

/-- The errors `bson.ObjectId(value)` can raise: `InvalidId` for a
malformed string, `TypeError` for a non-string, non-ObjectId, non-bytes
value. -/
inductive BsonError where
  | invalidId
  | typeError
deriving DecidableEq, Repr

/-- An arbitrary Python value handed to `parse_id`: a string, an
existing ObjectId, or any other (non-key-shaped) value. -/
inductive PyValue where
  | str (s : String)
  | objectId (o : ObjectIdV)
  | other (tag : Nat)
deriving DecidableEq, Repr

/-- `PydanticObjectId(value)` (i.e. `bson.ObjectId(value)`): an ObjectId
passes through, a valid 24-hex-character string is decoded to its binary
value (case-insensitively, hence the lowercase canonical form), any
other string raises `InvalidId`, any other value raises `TypeError`. -/
def PydanticObjectId : PyValue → Except BsonError ObjectIdV
  | .objectId o => .ok o
  | .str s => if validObjectIdHex s then .ok ⟨hexToLower s⟩ else .error .invalidId
  | .other _ => .error .typeError

/-- `ObjectIDIDMixin.parse_id`: delegate to `PydanticObjectId(value)`,
turning both `bson.errors.InvalidId` and `TypeError` into the
framework's domain-specific `InvalidID`. -/
def parse_id (value : PyValue) : Except DBError ObjectIdV :=
  match PydanticObjectId value with
  | .ok oid => .ok oid
  | .error _ => .error .invalidID

/-- A sample OAuth sub-record (provider `service1`), used by the
concrete witness statements. -/
def acc1 : OAuthAccount :=
  { id := 5, oauth_name := "service1", access_token := "TOKEN",
    account_id := "user_oauth1", account_email := "king@camelot.bt",
    expires_at := none, refresh_token := none }

/-- A sample OAuth sub-record (provider `service2`). -/
def acc2 : OAuthAccount :=
  { id := 6, oauth_name := "service2", access_token := "TOKEN",
    account_id := "user_oauth2", account_email := "king@camelot.bt",
    expires_at := none, refresh_token := none }

/-- A sample user document without OAuth sub-records. -/
def userNoOAuth : UserDoc :=
  { id := 1, email := [], hashed_password := "pw", is_active := true,
    is_superuser := false, is_verified := false, oauth_accounts := [] }

/-- The sample user owning `acc1`. -/
def userWithAcc1 : UserDoc :=
  { userNoOAuth with oauth_accounts := [acc1] }

/-- The sample user owning `acc1` and `acc2`, in that order. -/
def userWithBoth : UserDoc :=
  { userNoOAuth with oauth_accounts := [acc1, acc2] }

/-- A sample OAuth `create_dict` for provider `service1`. -/
def dict1 : OAuthCreateDict :=
  { oauth_name := "service1", access_token := "TOKEN",
    account_id := "user_oauth1", account_email := "king@camelot.bt" }

/-- A sample OAuth `create_dict` for provider `service2`. -/
def dict2 : OAuthCreateDict :=
  { oauth_name := "service2", access_token := "TOKEN2",
    account_id := "user_oauth2", account_email := "king@camelot.bt" }

/-- A sample access-token document, used by the concrete witness
statements. -/
def tokenA : AccessTokenDoc :=
  { id := 1, token := "TOKEN", user_id := 1, created_at := 100 }

theorem collEq2_trans {a b c : CollChar} (h1 : collEq2 a b = true)
    (h2 : collEq2 b c = true) : collEq2 a c = true := by
  simp only [collEq2, Bool.and_eq_true, beq_iff_eq] at *
  exact ⟨h1.1.trans h2.1, h1.2.trans h2.2⟩

theorem collEq2_symm {a b : CollChar} (h : collEq2 a b = true) :
    collEq2 b a = true := by
  simp only [collEq2, Bool.and_eq_true, beq_iff_eq] at *
  exact ⟨h.1.symm, h.2.symm⟩

theorem strEq2_trans : ∀ {a b c : List CollChar}, strEq2 a b = true →
    strEq2 b c = true → strEq2 a c = true
  | [], [], [], _, _ => rfl
  | x :: xs, y :: ys, z :: zs, h1, h2 => by
    simp only [strEq2, Bool.and_eq_true] at *
    exact ⟨collEq2_trans h1.1 h2.1, strEq2_trans h1.2 h2.2⟩

theorem strEq2_symm : ∀ {a b : List CollChar}, strEq2 a b = true →
    strEq2 b a = true
  | [], [], _ => rfl
  | x :: xs, y :: ys, h => by
    simp only [strEq2, Bool.and_eq_true] at *
    exact ⟨collEq2_symm h.1, strEq2_symm h.2⟩

theorem strEq2_length : ∀ {a b : List CollChar}, strEq2 a b = true →
    a.length = b.length
  | [], [], _ => rfl
  | x :: xs, y :: ys, h => by
    simp only [strEq2, Bool.and_eq_true] at h
    simp [strEq2_length h.2]

theorem strEq2_caseFlip : ∀ s : List CollChar, strEq2 (s.map caseFlip) s = true
  | [] => rfl
  | c :: cs => by
    simp only [List.map, strEq2, Bool.and_eq_true]
    exact ⟨by simp [collEq2, caseFlip], strEq2_caseFlip cs⟩

theorem find?_eq_some_of_mem_of_pairwise {p : UserDoc → Bool} :
    ∀ {store : List UserDoc} {u : UserDoc},
    store.Pairwise (fun a b => strEq2 a.email b.email = false) →
    u ∈ store → p u = true →
    (∀ v ∈ store, p v = true → strEq2 v.email u.email = true) →
    store.find? p = some u
  | v :: store, u, hpw, hmem, hpu, hcompat => by
    rcases List.mem_cons.mp hmem with h | h
    · subst h
      simp [List.find?, hpu]
    · have hvu : strEq2 v.email u.email = false :=
        (List.pairwise_cons.mp hpw).1 u h
      have hpv : p v = false := by
        cases hv : p v with
        | false => rfl
        | true =>
          have := hcompat v (List.mem_cons_self v store) hv
          rw [this] at hvu
          exact absurd hvu (by simp)
      rw [List.find?, hpv]
      exact find?_eq_some_of_mem_of_pairwise (List.pairwise_cons.mp hpw).2 h hpu
        (fun w hw hpw2 => hcompat w (List.mem_cons_of_mem v hw) hpw2)

/-- C1: For every stored user and every queried email string,
`get_by_email` returns the stored user exactly when the queried email
equals the stored email under a strength-2 collation (given the
documented invariant that stored emails are pairwise distinct under that
collation); letter case is ignored for every script (flipping the case
of any character of any email leaves the match), differing diacritics
never match, a match forces equal lengths (so no substring matching),
and the `*` character matches only a literal `*` (its own primary and
secondary weight), never acting as a wildcard. -/
theorem get_by_email_collation_exact :
    (∀ (store : List UserDoc) (q : List CollChar) (u : UserDoc),
        store.Pairwise (fun a b => strEq2 a.email b.email = false) →
        u ∈ store →
        (get_by_email store q = some u ↔ strEq2 u.email q = true))
    ∧ (∀ s : List CollChar, strEq2 (s.map caseFlip) s = true)
    ∧ (∀ a b : CollChar, a.diacritic ≠ b.diacritic → collEq2 a b = false)
    ∧ (∀ s t : List CollChar, strEq2 s t = true → s.length = t.length)
    ∧ (∀ c : CollChar, collEq2 starChar c = true ↔ (c.base = 42 ∧ c.diacritic = 0)) := by
  refine ⟨?_, strEq2_caseFlip, ?_, fun s t h => strEq2_length h, ?_⟩
  · intro store q u hpw hmem
    constructor
    · intro hfind
      have h2 : List.find? (fun v => strEq2 v.email q) store = some u := hfind
      have h3 := List.find?_some h2
      exact h3
    · intro hequ
      show List.find? (fun v => strEq2 v.email q) store = some u
      exact find?_eq_some_of_mem_of_pairwise hpw hmem hequ
        (fun v _ hpv => strEq2_trans hpv (strEq2_symm hequ))
  · intro a b h
    cases hc : collEq2 a b with
    | false => rfl
    | true =>
      simp only [collEq2, Bool.and_eq_true, beq_iff_eq] at hc
      exact absurd hc.2 h
  · intro c
    simp only [collEq2, starChar, Bool.and_eq_true, beq_iff_eq]
    constructor
    · intro h
      exact ⟨h.1.symm, h.2.symm⟩
    · intro h
      exact ⟨h.1.symm, h.2.symm⟩

/-- Witness for C1: a store holding the user with email `"ab"`
(lowercase `a`, lowercase `b`) is found by the query `"AB"` (uppercase
case variants), at concrete input. -/
theorem get_by_email_collation_exact_witness :
    get_by_email
      [{ id := 1, email := [⟨97, 0, false⟩, ⟨98, 0, false⟩],
         hashed_password := "pw", is_active := true, is_superuser := false,
         is_verified := false, oauth_accounts := [] }]
      [⟨97, 0, true⟩, ⟨98, 0, true⟩]
    = some { id := 1, email := [⟨97, 0, false⟩, ⟨98, 0, false⟩],
             hashed_password := "pw", is_active := true, is_superuser := false,
             is_verified := false, oauth_accounts := [] } := by
  have h := get_by_email_collation_exact.1
    [{ id := 1, email := [⟨97, 0, false⟩, ⟨98, 0, false⟩],
       hashed_password := "pw", is_active := true, is_superuser := false,
       is_verified := false, oauth_accounts := [] }]
    [⟨97, 0, true⟩, ⟨98, 0, true⟩]
    { id := 1, email := [⟨97, 0, false⟩, ⟨98, 0, false⟩],
      hashed_password := "pw", is_active := true, is_superuser := false,
      is_verified := false, oauth_accounts := [] }
    (by simp) (by simp)
  exact h.mpr (by decide)

theorem getOAuthAttr_setOAuthAttr (a : OAuthAccount) (u : OAuthUpd) (k : OAuthKey) :
    getOAuthAttr (setOAuthAttr a u) k =
      if u.key = k then u.val else getOAuthAttr a k := by
  cases u <;> cases k <;>
    simp [setOAuthAttr, getOAuthAttr, OAuthUpd.key, OAuthUpd.val]

theorem getOAuthAttr_applyOAuthUpdates :
    ∀ (upds : List OAuthUpd) (a : OAuthAccount) (k : OAuthKey),
    getOAuthAttr (applyOAuthUpdates a upds) k =
      (lookupLastVal upds k).getD (getOAuthAttr a k)
  | [], a, k => rfl
  | u :: us, a, k => by
    show getOAuthAttr (applyOAuthUpdates (setOAuthAttr a u) us) k = _
    rw [getOAuthAttr_applyOAuthUpdates us (setOAuthAttr a u) k]
    rw [getOAuthAttr_setOAuthAttr]
    show _ = (match lookupLastVal us k with
      | some v => some v
      | none => if u.key = k then some u.val else none).getD (getOAuthAttr a k)
    cases lookupLastVal us k with
    | some v => rfl
    | none =>
      by_cases h : u.key = k <;> simp [h]

theorem lookupLastVal_eq_none :
    ∀ (upds : List OAuthUpd) (k : OAuthKey),
    (∀ u ∈ upds, u.key ≠ k) → lookupLastVal upds k = none
  | [], _, _ => rfl
  | u :: us, k, h => by
    show (match lookupLastVal us k with
      | some v => some v
      | none => if u.key = k then some u.val else none) = none
    rw [lookupLastVal_eq_none us k (fun w hw => h w (List.mem_cons_of_mem u hw))]
    simp [h u (List.mem_cons_self u us)]

theorem map_if_id {α : Type} (p : α → Bool) (f : α → α) :
    ∀ (l : List α), (∀ b ∈ l, p b = false) →
    l.map (fun b => if p b then f b else b) = l
  | [], _ => rfl
  | b :: bs, h => by
    simp only [List.map]
    rw [h b (List.mem_cons_self b bs),
      map_if_id p f bs (fun c hc => h c (List.mem_cons_of_mem b hc))]
    simp

/-- C2: On an adapter constructed without an OAuth sub-record model,
`get_by_oauth_account`, `add_oauth_account` and `update_oauth_account`
all fail with `NotImplementedError`, whatever their arguments; the
exception is raised before anything is constructed or saved, so neither
the user document nor the collection is touched (the operations produce
no successor state). -/
theorem oauth_ops_not_supported_without_model (db : BeanieUserDatabase)
    (hdb : db.oauth_account_model = none) :
    (∀ (store : List UserDoc) (oauth account_id : String),
        get_by_oauth_account db store oauth account_id
          = .error .notImplementedError)
    ∧ (∀ (fresh : Nat) (store : List UserDoc) (user : UserDoc)
        (d : OAuthCreateDict),
        add_oauth_account db fresh store user d
          = .error .notImplementedError)
    ∧ (∀ (store : List UserDoc) (user : UserDoc) (oap : OAP)
        (upds : List OAuthUpd),
        update_oauth_account db store user oap upds
          = .error .notImplementedError) := by
  refine ⟨fun store oauth account_id => ?_, fun fresh store user d => ?_,
    fun store user oap upds => ?_⟩
  · simp [get_by_oauth_account, hdb]
  · simp [add_oauth_account, hdb]
  · simp [update_oauth_account, hdb]

/-- Witness for C2: the three operations at concrete arguments on an
adapter without an OAuth model. -/
theorem oauth_ops_not_supported_without_model_witness :
    get_by_oauth_account ⟨none⟩ [] "service1" "user_oauth1"
        = .error .notImplementedError
    ∧ add_oauth_account ⟨none⟩ 7 []
        { id := 1, email := [], hashed_password := "pw", is_active := true,
          is_superuser := false, is_verified := false, oauth_accounts := [] }
        { oauth_name := "service1", access_token := "TOKEN",
          account_id := "user_oauth1", account_email := "king@camelot.bt" }
        = .error .notImplementedError
    ∧ update_oauth_account ⟨none⟩ []
        { id := 1, email := [], hashed_password := "pw", is_active := true,
          is_superuser := false, is_verified := false, oauth_accounts := [] }
        ⟨"service1", "user_oauth1"⟩ []
        = .error .notImplementedError := by
  have h := oauth_ops_not_supported_without_model ⟨none⟩ rfl
  exact ⟨h.1 [] "service1" "user_oauth1",
    h.2.1 7 []
      { id := 1, email := [], hashed_password := "pw", is_active := true,
        is_superuser := false, is_verified := false, oauth_accounts := [] }
      { oauth_name := "service1", access_token := "TOKEN",
        account_id := "user_oauth1", account_email := "king@camelot.bt" },
    h.2.2 []
      { id := 1, email := [], hashed_password := "pw", is_active := true,
        is_superuser := false, is_verified := false, oauth_accounts := [] }
      ⟨"service1", "user_oauth1"⟩ []⟩


/-- C3: On an OAuth-configured adapter, `update_oauth_account` with
an existing sub-record whose (provider name, provider account id) pair
matches no entry of the user's OAuth list leaves the list — and the
whole user document — unchanged and still succeeds, returning the
unchanged user and saving it as is. -/
theorem update_oauth_account_no_match_silent_noop (db : BeanieUserDatabase)
    (model : Nat → OAuthCreateDict → OAuthAccount)
    (hdb : db.oauth_account_model = some model)
    (store : List UserDoc) (user : UserDoc) (oap : OAP)
    (upds : List OAuthUpd)
    (hnomatch : ∀ a ∈ user.oauth_accounts, matchesOAP a oap = false) :
    update_oauth_account db store user oap upds = .ok (save store user, user) := by
  have hmap : user.oauth_accounts.map (fun a =>
      if matchesOAP a oap then applyOAuthUpdates a upds else a)
      = user.oauth_accounts :=
    map_if_id (fun a => matchesOAP a oap) (fun a => applyOAuthUpdates a upds)
      user.oauth_accounts hnomatch
  simp [update_oauth_account, hdb, hmap]

/-- Witness for C3: a user owning one `service1` sub-record, updated for
the non-matching pair (`service2`, `user_oauth2`): the call succeeds and
both the returned user and the saved collection are unchanged. -/
theorem update_oauth_account_no_match_silent_noop_witness :
    update_oauth_account ⟨some mkOAuthAccount⟩ [userWithAcc1] userWithAcc1
      ⟨"service2", "user_oauth2"⟩ [.access_token "NEW_TOKEN"]
    = .ok ([userWithAcc1], userWithAcc1) := by
  have h := update_oauth_account_no_match_silent_noop ⟨some mkOAuthAccount⟩
    mkOAuthAccount rfl [userWithAcc1] userWithAcc1
    ⟨"service2", "user_oauth2"⟩ [.access_token "NEW_TOKEN"] (by decide)
  rw [h]
  rfl

/-- C4: On an OAuth-configured adapter, when exactly one entry of
the user's OAuth list matches the given sub-record's (provider name,
provider account id) pair, `update_oauth_account` rewrites exactly that
entry: the fields named in the update mapping take the (last) value
written for them and every field not named keeps its value; entries
before and after the matching one, the list's order and length, and
every other field of the user document are unchanged. -/
theorem update_oauth_account_single_match_frame (db : BeanieUserDatabase)
    (model : Nat → OAuthCreateDict → OAuthAccount)
    (hdb : db.oauth_account_model = some model)
    (store : List UserDoc) (user : UserDoc) (oap : OAP)
    (upds : List OAuthUpd) (pre post : List OAuthAccount) (a : OAuthAccount)
    (hsplit : user.oauth_accounts = pre ++ a :: post)
    (hmatch : matchesOAP a oap = true)
    (hpre : ∀ b ∈ pre, matchesOAP b oap = false)
    (hpost : ∀ b ∈ post, matchesOAP b oap = false) :
    (update_oauth_account db store user oap upds
      = .ok
        (save store
          { user with oauth_accounts := pre ++ applyOAuthUpdates a upds :: post },
         { user with oauth_accounts := pre ++ applyOAuthUpdates a upds :: post }))
    ∧ (∀ k : OAuthKey, (∀ u2 ∈ upds, u2.key ≠ k) →
        getOAuthAttr (applyOAuthUpdates a upds) k = getOAuthAttr a k)
    ∧ (∀ k : OAuthKey, getOAuthAttr (applyOAuthUpdates a upds) k
        = (lookupLastVal upds k).getD (getOAuthAttr a k)) := by
  refine ⟨?_, ?_, fun k => getOAuthAttr_applyOAuthUpdates upds a k⟩
  · have hmap : (pre ++ a :: post).map (fun b =>
        if matchesOAP b oap then applyOAuthUpdates b upds else b)
        = pre ++ applyOAuthUpdates a upds :: post := by
      simp only [List.map_append, List.map_cons]
      rw [map_if_id _ _ pre hpre, map_if_id _ _ post hpost, if_pos hmatch]
    simp only [update_oauth_account, hdb, hsplit, hmap]
  · intro k hk
    rw [getOAuthAttr_applyOAuthUpdates, lookupLastVal_eq_none upds k hk,
      Option.getD_none]

/-- Witness for C4: on a user owning `acc1` then `acc2`, updating the
sub-record matching (`service2`, `user_oauth2`) with a new access token
rewrites only `acc2`'s access token; `acc1`, the order and the rest of
the document are unchanged, and `acc2`'s other fields keep their
values. -/
theorem update_oauth_account_single_match_frame_witness :
    update_oauth_account ⟨some mkOAuthAccount⟩ [userWithBoth] userWithBoth
      ⟨"service2", "user_oauth2"⟩ [.access_token "NEW_TOKEN"]
    = .ok
      ([{ userNoOAuth with oauth_accounts := [acc1, { acc2 with access_token := "NEW_TOKEN" }] }],
       { userNoOAuth with oauth_accounts := [acc1, { acc2 with access_token := "NEW_TOKEN" }] })
    ∧ getOAuthAttr (applyOAuthUpdates acc2 [.access_token "NEW_TOKEN"]) .account_email
      = getOAuthAttr acc2 .account_email := by
  have h := update_oauth_account_single_match_frame ⟨some mkOAuthAccount⟩
    mkOAuthAccount rfl [userWithBoth] userWithBoth
    ⟨"service2", "user_oauth2"⟩ [.access_token "NEW_TOKEN"]
    [acc1] [] acc2 rfl (by decide) (by decide) (by decide)
  refine ⟨?_, h.2.1 .account_email (by decide)⟩
  rw [h.1]
  rfl

/-- C5: On an OAuth-configured adapter, `add_oauth_account` builds
the sub-record from the given field mapping and appends it at the end of
the user's OAuth list (no other field of the document changes); calling
it twice yields a list ending with the two new sub-records in call
order, with all previously present sub-records kept in place.  The
concrete model `BaseOAuthAccount` copies every given field and assigns a
fresh identifier when none is supplied. -/
theorem add_oauth_account_appends_in_order (db : BeanieUserDatabase)
    (model : Nat → OAuthCreateDict → OAuthAccount)
    (hdb : db.oauth_account_model = some model)
    (fresh1 fresh2 : Nat) (store1 store2 : List UserDoc) (user : UserDoc)
    (d1 d2 : OAuthCreateDict) :
    (add_oauth_account db fresh1 store1 user d1
      = .ok
        (save store1
          { user with oauth_accounts := user.oauth_accounts ++ [model fresh1 d1] },
         { user with oauth_accounts := user.oauth_accounts ++ [model fresh1 d1] }))
    ∧ (add_oauth_account db fresh2 store2
        { user with oauth_accounts := user.oauth_accounts ++ [model fresh1 d1] } d2
      = .ok
        (save store2
          { user with oauth_accounts :=
              user.oauth_accounts ++ [model fresh1 d1, model fresh2 d2] },
         { user with oauth_accounts :=
             user.oauth_accounts ++ [model fresh1 d1, model fresh2 d2] }))
    ∧ (∀ (f : Nat) (d : OAuthCreateDict),
        (mkOAuthAccount f d).oauth_name = d.oauth_name
        ∧ (mkOAuthAccount f d).access_token = d.access_token
        ∧ (mkOAuthAccount f d).account_id = d.account_id
        ∧ (mkOAuthAccount f d).account_email = d.account_email
        ∧ (mkOAuthAccount f d).expires_at = d.expires_at
        ∧ (mkOAuthAccount f d).refresh_token = d.refresh_token
        ∧ (d.id = none → (mkOAuthAccount f d).id = f)) := by
  refine ⟨?_, ?_, fun f d => ?_⟩
  · simp [add_oauth_account, hdb]
  · simp [add_oauth_account, hdb]
  · refine ⟨rfl, rfl, rfl, rfl, rfl, rfl, fun h => ?_⟩
    simp [mkOAuthAccount, h]

/-- Witness for C5: starting from a user with no sub-records, two
successive `add_oauth_account` calls (field mappings `dict1` then
`dict2`, fresh identifiers 5 then 6) leave the OAuth list holding
exactly the two new sub-records in call order. -/
theorem add_oauth_account_appends_in_order_witness :
    add_oauth_account ⟨some mkOAuthAccount⟩ 6 []
      { userNoOAuth with oauth_accounts := [mkOAuthAccount 5 dict1] } dict2
    = .ok
      ([{ userNoOAuth with oauth_accounts := [mkOAuthAccount 5 dict1, mkOAuthAccount 6 dict2] }],
       { userNoOAuth with oauth_accounts := [mkOAuthAccount 5 dict1, mkOAuthAccount 6 dict2] }) := by
  have h := add_oauth_account_appends_in_order ⟨some mkOAuthAccount⟩
    mkOAuthAccount rfl 5 6 [] [] userNoOAuth dict1 dict2
  exact h.2.1

theorem find?_eq_some_of_unique {α : Type} {p : α → Bool} :
    ∀ {l : List α} {d : α},
    d ∈ l → p d = true →
    l.Pairwise (fun a b => ¬(p a = true ∧ p b = true)) →
    l.find? p = some d
  | v :: rest, d, hmem, hpd, hpw => by
    rcases List.mem_cons.mp hmem with h | h
    · subst h
      simp [List.find?, hpd]
    · have hpv : p v = false := by
        cases hv : p v with
        | false => rfl
        | true => exact absurd ⟨hv, hpd⟩ ((List.pairwise_cons.mp hpw).1 d h)
      rw [List.find?, hpv]
      exact find?_eq_some_of_unique h hpd (List.pairwise_cons.mp hpw).2

theorem eq_of_mem_of_pairwise_ne_key {α β : Type} {key : α → β} :
    ∀ {l : List α} {v d : α}, l.Pairwise (fun a b => key a ≠ key b) →
    v ∈ l → d ∈ l → key v = key d → v = d
  | x :: rest, v, d, hpw, hv, hd, hkey => by
    rcases List.mem_cons.mp hv with h1 | h1 <;> rcases List.mem_cons.mp hd with h2 | h2
    · rw [h1, h2]
    · subst h1
      exact absurd hkey ((List.pairwise_cons.mp hpw).1 d h2)
    · subst h2
      exact absurd hkey.symm ((List.pairwise_cons.mp hpw).1 v h1)
    · exact eq_of_mem_of_pairwise_ne_key (List.pairwise_cons.mp hpw).2 h1 h2 hkey

/-- C6: Under the unique-token-index invariant (pairwise distinct
token strings), `get_by_token` without `max_age` returns a stored
document exactly when its token field equals the query; with `max_age`
it returns the document exactly when additionally its creation timestamp
is greater than or equal to `max_age`, so the stored document with the
queried token whose creation timestamp is strictly before `max_age`
yields an absent result. -/
theorem get_by_token_exact_with_max_age_cutoff (store : List AccessTokenDoc)
    (t : String)
    (hdist : store.Pairwise (fun a b => a.token ≠ b.token)) :
    (∀ d : AccessTokenDoc,
        get_by_token store t none = some d ↔ d ∈ store ∧ d.token = t)
    ∧ (∀ (d : AccessTokenDoc) (m : Int),
        get_by_token store t (some m) = some d
          ↔ d ∈ store ∧ d.token = t ∧ m ≤ d.created_at)
    ∧ (∀ (d : AccessTokenDoc) (m : Int), d ∈ store → d.token = t →
        d.created_at < m → get_by_token store t (some m) = none) := by
  refine ⟨fun d => ⟨fun hfind => ?_, fun hcond => ?_⟩,
    fun d m => ⟨fun hfind => ?_, fun hcond => ?_⟩, fun d m hmem ht hlt => ?_⟩
  · have h2 : List.find? (fun x => x.token == t && true) store = some d := hfind
    have h3 := List.find?_some h2
    have h4 := List.mem_of_find?_eq_some h2
    simp only [Bool.and_true, beq_iff_eq] at h3
    exact ⟨h4, h3⟩
  · show List.find? (fun x => x.token == t && true) store = some d
    refine find?_eq_some_of_unique hcond.1 (by simp [hcond.2]) (hdist.imp ?_)
    intro a b hab hcontra
    simp only [Bool.and_true, beq_iff_eq] at hcontra
    exact hab (hcontra.1.trans hcontra.2.symm)
  · have h2 : List.find? (fun x => x.token == t && decide (m ≤ x.created_at))
        store = some d := hfind
    have h3 := List.find?_some h2
    have h4 := List.mem_of_find?_eq_some h2
    simp only [Bool.and_eq_true, beq_iff_eq, decide_eq_true_eq] at h3
    exact ⟨h4, h3.1, h3.2⟩
  · show List.find? (fun x => x.token == t && decide (m ≤ x.created_at))
      store = some d
    refine find?_eq_some_of_unique hcond.1
      (by simp [hcond.2.1, hcond.2.2]) (hdist.imp ?_)
    intro a b hab hcontra
    simp only [Bool.and_eq_true, beq_iff_eq, decide_eq_true_eq] at hcontra
    exact hab (hcontra.1.1.trans hcontra.2.1.symm)
  · show List.find? (fun x => x.token == t && decide (m ≤ x.created_at))
      store = none
    rw [List.find?_eq_none]
    intro x hx
    by_cases hxt : x.token = t
    · have hxd : x = d := eq_of_mem_of_pairwise_ne_key hdist hx hmem (hxt.trans ht.symm)
      subst hxd
      simp [hxt]
      omega
    · simp [hxt]

/-- Witness for C6: the store holding `tokenA` (token `"TOKEN"`, created
at time 100): the plain lookup and the lookup with `max_age = 50` find
it, the lookup with `max_age = 200` (after creation) returns absent. -/
theorem get_by_token_exact_with_max_age_cutoff_witness :
    get_by_token [tokenA] "TOKEN" none = some tokenA
    ∧ get_by_token [tokenA] "TOKEN" (some 50) = some tokenA
    ∧ get_by_token [tokenA] "TOKEN" (some 200) = none := by
  have h := get_by_token_exact_with_max_age_cutoff [tokenA] "TOKEN" (by simp)
  exact ⟨(h.1 tokenA).mpr (by decide),
    (h.2.1 tokenA 50).mpr (by decide),
    h.2.2 tokenA 200 (by decide) (by decide) (by decide)⟩

/-- C7: A field absent from the mapping passed to `create` takes its
declared default in the constructed (and persisted) document: a user's
`is_active` is `true` and `is_superuser` and `is_verified` are `false`;
an access token's `created_at` is the current UTC time (`now`) at
construction. -/
theorem create_unset_fields_take_defaults :
    (∀ (store : List UserDoc) (fresh : Nat) (d : UserCreateDict),
        BeanieUserDatabase.create store fresh d
          = (store ++ [mkUserDoc fresh d], mkUserDoc fresh d)
        ∧ (d.is_active = none → (mkUserDoc fresh d).is_active = true)
        ∧ (d.is_superuser = none → (mkUserDoc fresh d).is_superuser = false)
        ∧ (d.is_verified = none → (mkUserDoc fresh d).is_verified = false))
    ∧ (∀ (store : List AccessTokenDoc) (fresh : Nat) (now : Int)
        (d : AccessTokenCreateDict),
        BeanieAccessTokenDatabase.create store fresh now d
          = (store ++ [mkAccessTokenDoc fresh now d], mkAccessTokenDoc fresh now d)
        ∧ (d.created_at = none → (mkAccessTokenDoc fresh now d).created_at = now)) := by
  refine ⟨fun store fresh d => ⟨rfl, fun h => ?_, fun h => ?_, fun h => ?_⟩,
    fun store fresh now d => ⟨rfl, fun h => ?_⟩⟩ <;>
    simp [mkUserDoc, mkAccessTokenDoc, h]

/-- Witness for C7: creating a user from a mapping giving only `email`
and `hashed_password` yields `is_active = true`, `is_superuser = false`,
`is_verified = false`; creating an access token without `created_at` at
current time 100 yields `created_at = 100`. -/
theorem create_unset_fields_take_defaults_witness :
    (mkUserDoc 1 { email := [], hashed_password := "pw" }).is_active = true
    ∧ (mkUserDoc 1 { email := [], hashed_password := "pw" }).is_superuser = false
    ∧ (mkUserDoc 1 { email := [], hashed_password := "pw" }).is_verified = false
    ∧ (mkAccessTokenDoc 1 100 { token := "TOKEN", user_id := 1 }).created_at = 100 := by
  have hu := create_unset_fields_take_defaults.1 [] 1
    { email := [], hashed_password := "pw" }
  have ht := create_unset_fields_take_defaults.2 [] 1 100
    { token := "TOKEN", user_id := 1 }
  exact ⟨hu.2.1 rfl, hu.2.2.1 rfl, hu.2.2.2 rfl, ht.2 rfl⟩

theorem getUserAttr_setUserAttr (u : UserDoc) (w : UserUpd) (k : UserKey) :
    getUserAttr (setUserAttr u w) k =
      if w.key = k then w.val else getUserAttr u k := by
  cases w <;> cases k <;>
    simp [setUserAttr, getUserAttr, UserUpd.key, UserUpd.val]

theorem getUserAttr_applyUserUpdates :
    ∀ (upds : List UserUpd) (u : UserDoc) (k : UserKey),
    getUserAttr (applyUserUpdates u upds) k =
      (userLookupLastVal upds k).getD (getUserAttr u k)
  | [], u, k => rfl
  | w :: ws, u, k => by
    show getUserAttr (applyUserUpdates (setUserAttr u w) ws) k = _
    rw [getUserAttr_applyUserUpdates ws (setUserAttr u w) k, getUserAttr_setUserAttr]
    show _ = (match userLookupLastVal ws k with
      | some v => some v
      | none => if w.key = k then some w.val else none).getD (getUserAttr u k)
    cases userLookupLastVal ws k with
    | some v => rfl
    | none =>
      by_cases h : w.key = k <;> simp [h]

theorem userLookupLastVal_eq_none :
    ∀ (upds : List UserUpd) (k : UserKey),
    (∀ w ∈ upds, w.key ≠ k) → userLookupLastVal upds k = none
  | [], _, _ => rfl
  | w :: ws, k, h => by
    show (match userLookupLastVal ws k with
      | some v => some v
      | none => if w.key = k then some w.val else none) = none
    rw [userLookupLastVal_eq_none ws k (fun x hx => h x (List.mem_cons_of_mem w hx))]
    simp [h w (List.mem_cons_self w ws)]

theorem getTokenAttr_setTokenAttr (d : AccessTokenDoc) (w : TokenUpd) (k : TokenKey) :
    getTokenAttr (setTokenAttr d w) k =
      if w.key = k then w.val else getTokenAttr d k := by
  cases w <;> cases k <;>
    simp [setTokenAttr, getTokenAttr, TokenUpd.key, TokenUpd.val]

theorem getTokenAttr_applyTokenUpdates :
    ∀ (upds : List TokenUpd) (d : AccessTokenDoc) (k : TokenKey),
    getTokenAttr (applyTokenUpdates d upds) k =
      (tokenLookupLastVal upds k).getD (getTokenAttr d k)
  | [], d, k => rfl
  | w :: ws, d, k => by
    show getTokenAttr (applyTokenUpdates (setTokenAttr d w) ws) k = _
    rw [getTokenAttr_applyTokenUpdates ws (setTokenAttr d w) k, getTokenAttr_setTokenAttr]
    show _ = (match tokenLookupLastVal ws k with
      | some v => some v
      | none => if w.key = k then some w.val else none).getD (getTokenAttr d k)
    cases tokenLookupLastVal ws k with
    | some v => rfl
    | none =>
      by_cases h : w.key = k <;> simp [h]

theorem tokenLookupLastVal_eq_none :
    ∀ (upds : List TokenUpd) (k : TokenKey),
    (∀ w ∈ upds, w.key ≠ k) → tokenLookupLastVal upds k = none
  | [], _, _ => rfl
  | w :: ws, k, h => by
    show (match tokenLookupLastVal ws k with
      | some v => some v
      | none => if w.key = k then some w.val else none) = none
    rw [tokenLookupLastVal_eq_none ws k (fun x hx => h x (List.mem_cons_of_mem w hx))]
    simp [h w (List.mem_cons_self w ws)]

/-- C8: `update` on an already-persisted user or access-token
document merges the mapping into the document (each named field takes
the value written for it — the last one if a field is named twice —
while every field not named keeps its previous value) and then persists
the whole resulting document, which is also the returned document. -/
theorem update_merges_fields_then_saves_whole_document :
    (∀ (store : List UserDoc) (user : UserDoc) (upds : List UserUpd),
        BeanieUserDatabase.update store user upds
          = (save store (applyUserUpdates user upds), applyUserUpdates user upds))
    ∧ (∀ (user : UserDoc) (upds : List UserUpd) (k : UserKey),
        getUserAttr (applyUserUpdates user upds) k
          = (userLookupLastVal upds k).getD (getUserAttr user k))
    ∧ (∀ (user : UserDoc) (upds : List UserUpd) (k : UserKey),
        (∀ w ∈ upds, w.key ≠ k) →
        getUserAttr (applyUserUpdates user upds) k = getUserAttr user k)
    ∧ (∀ (store : List AccessTokenDoc) (d : AccessTokenDoc) (upds : List TokenUpd),
        BeanieAccessTokenDatabase.update store d upds
          = (save_access_token store (applyTokenUpdates d upds),
             applyTokenUpdates d upds))
    ∧ (∀ (d : AccessTokenDoc) (upds : List TokenUpd) (k : TokenKey),
        getTokenAttr (applyTokenUpdates d upds) k
          = (tokenLookupLastVal upds k).getD (getTokenAttr d k))
    ∧ (∀ (d : AccessTokenDoc) (upds : List TokenUpd) (k : TokenKey),
        (∀ w ∈ upds, w.key ≠ k) →
        getTokenAttr (applyTokenUpdates d upds) k = getTokenAttr d k) := by
  refine ⟨fun store user upds => rfl,
    fun user upds k => getUserAttr_applyUserUpdates upds user k,
    fun user upds k hk => ?_,
    fun store d upds => rfl,
    fun d upds k => getTokenAttr_applyTokenUpdates upds d k,
    fun d upds k hk => ?_⟩
  · rw [getUserAttr_applyUserUpdates, userLookupLastVal_eq_none upds k hk,
      Option.getD_none]
  · rw [getTokenAttr_applyTokenUpdates, tokenLookupLastVal_eq_none upds k hk,
      Option.getD_none]

/-- Witness for C8: updating the sample user with
`{"is_superuser": True}` returns the document with `is_superuser` set
and saves it, while `email` (not named in the mapping) keeps its value;
same shape for an access-token update of `created_at`. -/
theorem update_merges_fields_then_saves_whole_document_witness :
    BeanieUserDatabase.update [userNoOAuth] userNoOAuth [.is_superuser true]
      = ([applyUserUpdates userNoOAuth [.is_superuser true]],
         applyUserUpdates userNoOAuth [.is_superuser true])
    ∧ getUserAttr (applyUserUpdates userNoOAuth [.is_superuser true]) .email
      = getUserAttr userNoOAuth .email
    ∧ BeanieAccessTokenDatabase.update [tokenA] tokenA [.created_at 7]
      = ([applyTokenUpdates tokenA [.created_at 7]],
         applyTokenUpdates tokenA [.created_at 7])
    ∧ getTokenAttr (applyTokenUpdates tokenA [.created_at 7]) .token
      = getTokenAttr tokenA .token := by
  have h := update_merges_fields_then_saves_whole_document
  refine ⟨(h.1 [userNoOAuth] userNoOAuth [.is_superuser true]).trans ?_,
    h.2.2.1 userNoOAuth [.is_superuser true] .email (by decide),
    (h.2.2.2.1 [tokenA] tokenA [.created_at 7]).trans ?_,
    h.2.2.2.2.2 tokenA [.created_at 7] .token (by decide)⟩
  · rfl
  · rfl

/-- C9: `parse_id` on a validly formatted 24-hex-character string
returns the same key as constructing `PydanticObjectId` directly from
that string; on a malformed string and on a non-string, non-key-shaped
value it fails with the framework's domain-specific `InvalidID` (the
underlying `InvalidId`/`TypeError` parse errors are never surfaced). -/
theorem parse_id_roundtrip_and_invalid (value : PyValue) :
    (∀ s : String, value = .str s → validObjectIdHex s = true →
        parse_id value = .ok ⟨hexToLower s⟩
        ∧ PydanticObjectId value = .ok ⟨hexToLower s⟩)
    ∧ (∀ s : String, value = .str s → validObjectIdHex s = false →
        parse_id value = .error .invalidID)
    ∧ (∀ tag : Nat, value = .other tag → parse_id value = .error .invalidID) := by
  refine ⟨fun s hv h => ?_, fun s hv h => ?_, fun tag hv => ?_⟩ <;> subst hv
  · constructor <;> simp [parse_id, PydanticObjectId, h]
  · simp [parse_id, PydanticObjectId, h]
  · rfl

/-- Witness for C9: a valid ObjectId hex string parses to the directly
constructed key; a malformed string and a non-string value both give
`InvalidID`. -/
theorem parse_id_roundtrip_and_invalid_witness :
    parse_id (.str "5eb7cf5a86d9755df3a6c593")
      = .ok ⟨"5eb7cf5a86d9755df3a6c593"⟩
    ∧ parse_id (.str "invalid_identifier") = .error .invalidID
    ∧ parse_id (.other 0) = .error .invalidID := by
  have h1 := (parse_id_roundtrip_and_invalid (.str "5eb7cf5a86d9755df3a6c593")).1
    "5eb7cf5a86d9755df3a6c593" rfl (by decide)
  have h2 := (parse_id_roundtrip_and_invalid (.str "invalid_identifier")).2.1
    "invalid_identifier" rfl (by decide)
  have h3 := (parse_id_roundtrip_and_invalid (.other 0)).2.2 0 rfl
  refine ⟨h1.1.trans ?_, h2, h3⟩
  have hlow : hexToLower "5eb7cf5a86d9755df3a6c593" = "5eb7cf5a86d9755df3a6c593" := by
    decide
  rw [hlow]

/-- C10: `create` forwards every entry of the field mapping to the
document constructor unfiltered, so a mapping that itself contains a
value for the primary-key field `id` produces a document persisted under
that caller-supplied identifier, not the store-generated one. -/
theorem create_forwards_caller_supplied_id :
    (∀ (store : List UserDoc) (fresh n : Nat) (d : UserCreateDict),
        d.id = some n →
        BeanieUserDatabase.create store fresh d
          = (store ++ [mkUserDoc fresh d], mkUserDoc fresh d)
        ∧ (mkUserDoc fresh d).id = n)
    ∧ (∀ (store : List AccessTokenDoc) (fresh n : Nat) (now : Int)
        (d : AccessTokenCreateDict),
        d.id = some n →
        BeanieAccessTokenDatabase.create store fresh now d
          = (store ++ [mkAccessTokenDoc fresh now d], mkAccessTokenDoc fresh now d)
        ∧ (mkAccessTokenDoc fresh now d).id = n) := by
  refine ⟨fun store fresh n d h => ⟨rfl, ?_⟩,
    fun store fresh n now d h => ⟨rfl, ?_⟩⟩ <;>
    simp [mkUserDoc, mkAccessTokenDoc, h]

/-- Witness for C10: creating a user and an access token from mappings
carrying `id = 42` persists both under identifier 42, not under the
store-generated identifier 1. -/
theorem create_forwards_caller_supplied_id_witness :
    (mkUserDoc 1 { id := some 42, email := [], hashed_password := "pw" }).id = 42
    ∧ (mkAccessTokenDoc 1 100 { id := some 42, token := "TOKEN", user_id := 1 }).id = 42 := by
  have hu := create_forwards_caller_supplied_id.1 [] 1 42
    { id := some 42, email := [], hashed_password := "pw" } rfl
  have ht := create_forwards_caller_supplied_id.2 [] 1 42 100
    { id := some 42, token := "TOKEN", user_id := 1 } rfl
  exact ⟨hu.2, ht.2⟩
